import Mathlib

/-!
Shallow embedding of `src/repositories/transcription.repository.ts`
(the `KvCache`-backed `TranscriptionRepository`).

Modelling conventions:
* Timestamps (`createdAt`, `expiresAt`) are milliseconds since epoch (`Nat`).
  The source stores ISO-8601 strings whose lexicographic order agrees with
  numeric time order, and compares them only by order.
* The two clock reads on lines 86-87 of the source are modelled as a single
  instant `now`, passed as a parameter; the generated id is likewise a
  parameter `newId`.
* A stored KV value is a non-empty string.  `JSON.stringify` output of a
  record is `StoredVal.recVal`, of an owner index `StoredVal.idxVal`, and
  `StoredVal.corruptVal` stands for any other (undecodable) bytes.  An
  absent key and the falsy empty string are both modelled as `none` from
  `Store.get`, matching the source's `if (!data)` checks.
* A thrown JavaScript error that is not one of the repository's own error
  classes (e.g. a `SyntaxError` from `JSON.parse`, or a `TypeError` from
  pushing onto a non-array) is modelled as `RepoError.parseError`.
* Mutation persists across thrown exceptions in the source, so every
  mutating operation returns the resulting store even on error.
-/

deriving instance DecidableEq for Except

/-- Lifecycle marker (`TranscriptionStatus` in `transcription.model.ts`). -/
inductive TranscriptionStatus
  | pending
  | processing
  | completed
  | failed
deriving DecidableEq, Repr

/-- Millisecond timestamps; see the modelling conventions above. -/
abbrev Timestamp := Nat

/-- The `Transcription` interface from `transcription.model.ts`. -/
structure Transcription where
  transcriptionId : String
  userId : String
  originalFilename : String
  fileSize : Nat
  mimeType : String
  duration : Option Nat
  text : String
  confidence : Option Rat
  status : TranscriptionStatus
  createdAt : Timestamp
  expiresAt : Timestamp
deriving DecidableEq, Repr

/-- A value stored in the KV backend (a non-empty string). -/
inductive StoredVal
  | recVal (t : Transcription)
  | idxVal (ids : List String)
  | corruptVal (s : String)
deriving DecidableEq, Repr

/-- The KV backend: an association list of keys to stored strings. -/
abbrev Store := List (String × StoredVal)

/-- `kv.get(key)`: first binding of the key, `none` if absent. -/
def Store.get : Store → String → Option StoredVal
  | [], _ => none
  | kv :: rest, k => if kv.1 = k then some kv.2 else Store.get rest k

/-- `kv.put(key, value)`: overwrite in place, append if absent. -/
def Store.put : Store → String → StoredVal → Store
  | [], k, v => [(k, v)]
  | kv :: rest, k, v => if kv.1 = k then (k, v) :: rest else kv :: Store.put rest k v

/-- `kv.delete(key)`: remove every binding of the key. -/
def Store.del (s : Store) (k : String) : Store :=
  s.filter fun p => p.1 != k

/-- `JSON.parse` of primary-record bytes, expected to be a record.
`none` models a thrown `SyntaxError` or an out-of-shape value. -/
def decodeTranscription : StoredVal → Option Transcription
  | .recVal t => some t
  | _ => none

/-- `JSON.parse` of owner-index bytes, expected to be a string array. -/
def decodeIndex : StoredVal → Option (List String)
  | .idxVal ids => some ids
  | _ => none

/-- Errors observable from a repository call (`utils/errors.ts` classes,
plus `parseError` for an escaping non-repository JavaScript error). -/
inductive RepoError
  | notFound (entity id : String)
  | validation (msg : String)
  | parseError
deriving DecidableEq, Repr

/-- `TranscribeAudioInput`: the audio buffer is modelled by its bytes. -/
structure TranscribeAudioInput where
  audioBuffer : List Nat
  userId : String
  filename : String
  mimeType : String

/-- `TranscribeAudioResponse`. -/
structure TranscribeAudioResponse where
  text : String
  transcriptionId : String
  fileSize : Nat
  mimeType : String
deriving DecidableEq, Repr

/-- `UpdateTranscriptionInput`: an absent field means "not patched". -/
structure UpdateTranscriptionInput where
  status : Option TranscriptionStatus
  text : Option String
  confidence : Option Rat

/-- Key of a primary record: `transcription:` + id (line 20 / 105). -/
def primaryKey (id : String) : String := "transcription:" ++ id

/-- Key of an owner's index: `user_transcriptions:` + userId (line 21 / 109). -/
def indexKey (ownerId : String) : String := "user_transcriptions:" ++ ownerId

/-- Does a key lie in the primary-record key range scanned by the sweeper? -/
def isRecKey (k : String) : Bool := "transcription:".data.isPrefixOf k.data

/-- Does a key lie in the owner-index key range? -/
def isIdxKey (k : String) : Bool := "user_transcriptions:".data.isPrefixOf k.data

namespace TranscriptionRepository

/-- `maxSize` from line 60: 25 MiB. -/
def maxSize : Nat := 25 * 1024 * 1024

/-- `allowedTypes` from lines 66-75. -/
def allowedTypes : List String :=
  ["audio/mpeg", "audio/wav", "audio/mp3", "audio/m4a",
   "audio/ogg", "audio/webm", "audio/x-mpeg-3", "audio/x-wav"]

/-- The fixed TTL from line 87: 30 days, in milliseconds. -/
def ttlMillis : Nat := 30 * 24 * 60 * 60 * 1000

/-- The placeholder transcription text from line 83. -/
def mkText (filename : String) (len : Nat) : String :=
  "Transcribed text for " ++ filename ++ " (" ++ toString len ++ " bytes)"

/-- The `transcription` object built on lines 91-102 (the mock confidence
score on line 84 is 0.95, i.e. `mkRat 95 100`). -/
def mkTranscription (input : TranscribeAudioInput) (now : Timestamp) (newId : String) :
    Transcription :=
  { transcriptionId := newId
    userId := input.userId
    originalFilename := input.filename
    fileSize := input.audioBuffer.length
    mimeType := input.mimeType
    duration := none
    text := mkText input.filename input.audioBuffer.length
    confidence := some (mkRat 95 100)
    status := .completed
    createdAt := now
    expiresAt := now + ttlMillis }

/-- The return value built on lines 115-120. -/
def mkResponse (input : TranscribeAudioInput) (newId : String) : TranscribeAudioResponse :=
  { text := mkText input.filename input.audioBuffer.length
    transcriptionId := newId
    fileSize := input.audioBuffer.length
    mimeType := input.mimeType }

/-- `transcribeAudio` (lines 39-121): validate, build the record, store it,
then append its id to the owner's index. -/
def transcribeAudio (kv : Store) (input : TranscribeAudioInput)
    (now : Timestamp) (newId : String) :
    Except RepoError TranscribeAudioResponse × Store :=
  if input.audioBuffer.length = 0 then
    (.error (.validation "Audio buffer is required and cannot be empty"), kv)
  else if input.userId = "" then
    (.error (.validation "User ID is required"), kv)
  else if input.filename = "" then
    (.error (.validation "Filename is required"), kv)
  else if input.mimeType = "" then
    (.error (.validation "MIME type is required"), kv)
  else if maxSize < input.audioBuffer.length then
    (.error (.validation "File size exceeds maximum limit of 25MB"), kv)
  else if input.mimeType ∉ allowedTypes then
    (.error (.validation "Invalid file type. Allowed types: mp3, wav, m4a, ogg, webm"), kv)
  else
    let t := mkTranscription input now newId
    let kv1 := Store.put kv (primaryKey newId) (.recVal t)
    let response := mkResponse input newId
    match Store.get kv1 (indexKey input.userId) with
    | none => (.ok response, Store.put kv1 (indexKey input.userId) (.idxVal [newId]))
    | some v =>
      match decodeIndex v with
      | some ids =>
        (.ok response, Store.put kv1 (indexKey input.userId) (.idxVal (ids ++ [newId])))
      | none => (.error .parseError, kv1)

/-- `getById` (lines 126-135); a read, so it leaves the store untouched. -/
def getById (kv : Store) (transcriptionId : String) : Except RepoError Transcription :=
  match Store.get kv (primaryKey transcriptionId) with
  | none => .error (.notFound "Transcription" transcriptionId)
  | some v =>
    match decodeTranscription v with
    | some t => .ok t
    | none => .error .parseError

/-- The sort from line 166: JavaScript's `Array.prototype.sort` with the
comparator `(a, b) => b.createdAt - a.createdAt`.  That sort is stable, and
a stable sort under a total, transitive comparator has a unique result, so
it is modelled by a stable insertion sort on `createdAt` descending. -/
def sortByCreatedAtDesc (ts : List Transcription) : List Transcription :=
  List.insertionSort (fun a b => b.createdAt ≤ a.createdAt) ts

/-- `listByUser` (lines 140-169). -/
def listByUser (kv : Store) (userId : String) : Except RepoError (List Transcription) :=
  if userId = "" then .error (.validation "User ID is required")
  else
    match Store.get kv (indexKey userId) with
    | none => .ok []
    | some v =>
      match decodeIndex v with
      | none => .error .parseError
      | some ids =>
        .ok (sortByCreatedAtDesc (ids.filterMap fun i => (getById kv i).toOption))

/-- The `updatedTranscription` object from lines 177-187: the spread
`{...existing, ...updates}` followed by re-pinning every immutable field,
so only `status`, `text` and `confidence` can take the patch's value. -/
def patchRecord (existing : Transcription) (updates : UpdateTranscriptionInput) :
    Transcription :=
  { existing with
    status := updates.status.getD existing.status
    text := updates.text.getD existing.text
    confidence :=
      match updates.confidence with
      | some c => some c
      | none => existing.confidence }

/-- `update` (lines 174-193): patch the existing record, write the full
record back under the same primary key, leave the index alone. -/
def update (kv : Store) (transcriptionId : String) (updates : UpdateTranscriptionInput) :
    Except RepoError Transcription × Store :=
  match getById kv transcriptionId with
  | .error e => (.error e, kv)
  | .ok existing =>
    let updated := patchRecord existing updates
    (.ok updated, Store.put kv (primaryKey transcriptionId) (.recVal updated))

/-- `delete` (lines 198-214): remove the record, then filter its id out of
the owner's index if that index is present. -/
def delete (kv : Store) (transcriptionId : String) : Except RepoError Unit × Store :=
  match getById kv transcriptionId with
  | .error e => (.error e, kv)
  | .ok transcription =>
    let kv1 := Store.del kv (primaryKey transcriptionId)
    match Store.get kv1 (indexKey transcription.userId) with
    | none => (.ok (), kv1)
    | some v =>
      match decodeIndex v with
      | none => (.error .parseError, kv1)
      | some ids =>
        (.ok (), Store.put kv1 (indexKey transcription.userId)
          (.idxVal (ids.filter fun i => i ≠ transcriptionId)))

/-- One iteration of the sweep loop (lines 224-237): the whole body runs in
a `try`/`catch`, so an error is swallowed but its partial effects persist. -/
def sweepStep (now : Timestamp) (acc : Nat × Store) (keyName : String) : Nat × Store :=
  match Store.get acc.2 keyName with
  | none => acc
  | some v =>
    match decodeTranscription v with
    | none => acc
    | some t =>
      if t.expiresAt < now then
        match delete acc.2 t.transcriptionId with
        | (.ok _, s2) => (acc.1 + 1, s2)
        | (.error _, s2) => (acc.1, s2)
      else acc

/-- The snapshot taken by `kv.list({ prefix: TRANSCRIPTION_PREFIX })`. -/
def listKeys (kv : Store) : List String :=
  (kv.filter fun p => isRecKey p.1).map Prod.fst

/-- `cleanupExpired` (lines 219-240). -/
def cleanupExpired (kv : Store) (now : Timestamp) : Nat × Store :=
  (listKeys kv).foldl (sweepStep now) (0, kv)

end TranscriptionRepository

/-! ### Well-formedness of a store state

These predicates describe the store states the repository itself produces:
distinct keys, every record stored under the primary key of its own id, and
every owner-index key holding a decodable string array.  They are the
hypotheses under which the sweeper claims are settled. -/

/-- The keys of the store are pairwise distinct. -/
def NodupKeys (kv : Store) : Prop := (kv.map Prod.fst).Nodup

/-- A binding is consistently keyed: a record value sits under the primary
key derived from its own `transcriptionId`. -/
def keyedOkB (p : String × StoredVal) : Bool :=
  match p.2 with
  | .recVal t => p.1 == primaryKey t.transcriptionId
  | _ => true

/-- Every record binding in the store is consistently keyed. -/
def RecordsKeyed (kv : Store) : Prop := ∀ p ∈ kv, keyedOkB p = true

/-- Is a stored value a decodable owner index? -/
def isIdxVal : StoredVal → Bool
  | .idxVal _ => true
  | _ => false

/-- Every binding in the owner-index key range decodes as an index. -/
def IndexesOk (kv : Store) : Prop := ∀ p ∈ kv, isIdxKey p.1 = true → isIdxVal p.2 = true

/-- The conjunction of the three store-state invariants above. -/
def WellFormed (kv : Store) : Prop := NodupKeys kv ∧ RecordsKeyed kv ∧ IndexesOk kv

instance (kv : Store) : Decidable (NodupKeys kv) := by unfold NodupKeys; infer_instance

instance (kv : Store) : Decidable (RecordsKeyed kv) := by unfold RecordsKeyed; infer_instance

instance (kv : Store) : Decidable (IndexesOk kv) := by unfold IndexesOk; infer_instance

instance (kv : Store) : Decidable (WellFormed kv) := by unfold WellFormed; infer_instance

/-- Is a stored value a record that is expired at `now`?  (The source
compares the ISO strings `transcription.expiresAt < now` on line 229.) -/
def isExpiredVal (now : Timestamp) : StoredVal → Bool
  | .recVal t => t.expiresAt < now
  | _ => false

/-- Is the value stored under key `k` a record that is expired at `now`? -/
def isExpiredAt (now : Timestamp) (s : Store) (k : String) : Bool :=
  match Store.get s k with
  | some v => isExpiredVal now v
  | none => false

/-! ### Sample data used by the witnesses -/

/-- A valid creation input. -/
def sampleInput : TranscribeAudioInput :=
  { audioBuffer := [1, 2, 3], userId := "u1", filename := "a.wav", mimeType := "audio/wav" }

/-- A creation input with a mime type outside the allow-list. -/
def badMimeInput : TranscribeAudioInput :=
  { audioBuffer := [1, 2, 3], userId := "u1", filename := "a.mp4", mimeType := "video/mp4" }

/-- A record of owner `u` with id `a`, created at 0, expiring at 3. -/
def recA : Transcription :=
  { transcriptionId := "a"
    userId := "u"
    originalFilename := "f"
    fileSize := 1
    mimeType := "audio/wav"
    duration := none
    text := "t"
    confidence := none
    status := .completed
    createdAt := 0
    expiresAt := 3 }

/-- A record of owner `u` with id `b`, created at 2, expiring at 9. -/
def recB : Transcription :=
  { transcriptionId := "b"
    userId := "u"
    originalFilename := "g"
    fileSize := 2
    mimeType := "audio/wav"
    duration := none
    text := "s"
    confidence := none
    status := .pending
    createdAt := 2
    expiresAt := 9 }

/-- A store holding `recA` and `recB` with a consistent index for owner `u`. -/
def sampleStore : Store :=
  [(primaryKey "a", .recVal recA),
   (primaryKey "b", .recVal recB),
   (indexKey "u", .idxVal ["a", "b"])]

/-- A patch that only sets `status` to `failed`. -/
def samplePatch : UpdateTranscriptionInput :=
  { status := some .failed, text := none, confidence := none }

/-! ### Basic facts about the store model -/

theorem Store.get_put_self (s : Store) (k : String) (v : StoredVal) :
    Store.get (Store.put s k v) k = some v := by
  induction s with
  | nil => simp [Store.put, Store.get]
  | cons p rest ih =>
    by_cases h : p.1 = k
    · simp [Store.put, h, Store.get]
    · simp [Store.put, h, Store.get, ih]

theorem Store.get_put_ne (s : Store) (k k2 : String) (v : StoredVal) (h : k2 ≠ k) :
    Store.get (Store.put s k v) k2 = Store.get s k2 := by
  have hk : ¬ k = k2 := fun h2 => h h2.symm
  induction s with
  | nil => simp [Store.put, Store.get, hk]
  | cons p rest ih =>
    by_cases hp : p.1 = k
    · simp [Store.put, hp, Store.get, hk]
    · by_cases hp2 : p.1 = k2
      · simp [Store.put, hp, Store.get, hp2, h]
      · simp [Store.put, hp, Store.get, hp2, ih]

theorem Store.get_del_self (s : Store) (k : String) :
    Store.get (Store.del s k) k = none := by
  induction s with
  | nil => rfl
  | cons p rest ih =>
    simp only [Store.del, List.filter_cons] at ih ⊢
    by_cases h : p.1 = k
    · simpa [h] using ih
    · simpa [bne_iff_ne, h, Store.get] using ih

theorem Store.get_del_ne (s : Store) (k k2 : String) (h : k2 ≠ k) :
    Store.get (Store.del s k) k2 = Store.get s k2 := by
  induction s with
  | nil => rfl
  | cons p rest ih =>
    simp only [Store.del, List.filter_cons] at ih ⊢
    by_cases hp : p.1 = k
    · have hp2 : ¬ p.1 = k2 := fun h2 => h (h2 ▸ hp)
      simpa [hp, Store.get, hp2, Ne.symm h] using ih
    · by_cases hp2 : p.1 = k2
      · simp [bne_iff_ne, hp, Store.get, hp2, h]
      · simpa [bne_iff_ne, hp, Store.get, hp2] using ih

theorem Store.get_mem (s : Store) (k : String) (v : StoredVal)
    (h : Store.get s k = some v) : (k, v) ∈ s := by
  induction s with
  | nil => simp [Store.get] at h
  | cons p rest ih =>
    by_cases hp : p.1 = k
    · have h2 : some p.2 = some v := by simpa [Store.get, hp] using h
      have h3 : p = (k, v) := Prod.ext hp (Option.some.inj h2)
      rw [h3]
      exact List.mem_cons_self _ _
    · simp only [Store.get, hp, if_neg, not_false_iff] at h
      exact List.mem_cons_of_mem _ (ih h)

theorem Store.mem_put (s : Store) (k : String) (v : StoredVal) (p : String × StoredVal)
    (h : p ∈ Store.put s k v) : p ∈ s ∨ p = (k, v) := by
  induction s with
  | nil => simp [Store.put] at h; right; exact h
  | cons q rest ih =>
    by_cases hq : q.1 = k
    · simp only [Store.put, hq, if_pos, List.mem_cons] at h
      rcases h with h | h
      · right; exact h
      · left; exact List.mem_cons_of_mem _ h
    · simp only [Store.put, hq, if_neg, not_false_iff, List.mem_cons] at h
      rcases h with h | h
      · left; exact h ▸ List.mem_cons_self q rest
      · rcases ih h with h2 | h2
        · left; exact List.mem_cons_of_mem _ h2
        · right; exact h2

theorem Store.mem_del (s : Store) (k : String) (p : String × StoredVal)
    (h : p ∈ Store.del s k) : p ∈ s :=
  List.mem_of_mem_filter h

/-! ### Facts about the key space -/

theorem dataTrans : ("transcription:" : String).data
    = ['t','r','a','n','s','c','r','i','p','t','i','o','n',':'] := rfl

theorem dataUser : ("user_transcriptions:" : String).data
    = ['u','s','e','r','_','t','r','a','n','s','c','r','i','p','t','i','o','n','s',':'] := rfl

theorem primaryKey_inj (a b : String) (h : primaryKey a = primaryKey b) : a = b := by
  have h2 := congrArg String.data h
  simp only [primaryKey, String.data_append] at h2
  exact String.ext (List.append_cancel_left h2)

theorem indexKey_inj (a b : String) (h : indexKey a = indexKey b) : a = b := by
  have h2 := congrArg String.data h
  simp only [indexKey, String.data_append] at h2
  exact String.ext (List.append_cancel_left h2)

theorem primaryKey_ne_indexKey (a b : String) : primaryKey a ≠ indexKey b := by
  intro h
  have h2 := congrArg String.data h
  simp only [primaryKey, indexKey, String.data_append, dataTrans, dataUser] at h2
  simp at h2

theorem isRecKey_primaryKey (a : String) : isRecKey (primaryKey a) = true := by
  simp [isRecKey, primaryKey, String.data_append, List.isPrefixOf_iff_prefix]

theorem isIdxKey_indexKey (a : String) : isIdxKey (indexKey a) = true := by
  simp [isIdxKey, indexKey, String.data_append, List.isPrefixOf_iff_prefix]

theorem not_isRecKey_indexKey (a : String) : isRecKey (indexKey a) = false := by
  simp only [isRecKey, indexKey, String.data_append, dataTrans, dataUser]
  simp [List.isPrefixOf]

theorem isRecKey_ne_indexKey (k a : String) (h : isRecKey k = true) : k ≠ indexKey a := by
  intro h2
  rw [h2, not_isRecKey_indexKey] at h
  exact Bool.false_ne_true h

/-! ### Characterizing the repository operations -/

namespace TranscriptionRepository

theorem getById_ok_iff (kv : Store) (id : String) (t : Transcription) :
    getById kv id = .ok t ↔ Store.get kv (primaryKey id) = some (.recVal t) := by
  unfold getById
  cases hg : Store.get kv (primaryKey id) with
  | none => simp
  | some v => cases v <;> simp [decodeTranscription]

theorem getById_none (kv : Store) (id : String)
    (h : Store.get kv (primaryKey id) = none) :
    getById kv id = .error (.notFound "Transcription" id) := by
  unfold getById
  rw [h]

theorem getById_corrupt (kv : Store) (id s0 : String)
    (h : Store.get kv (primaryKey id) = some (.corruptVal s0)) :
    getById kv id = .error .parseError := by
  unfold getById
  rw [h]
  rfl

/-- Full characterization of a successful `transcribeAudio` call. -/
theorem transcribeAudio_ok_spec (kv : Store) (input : TranscribeAudioInput)
    (now : Timestamp) (newId : String) (r : TranscribeAudioResponse) (s2 : Store)
    (h : transcribeAudio kv input now newId = (.ok r, s2)) :
    r = mkResponse input newId ∧
    Store.get s2 (primaryKey newId) = some (.recVal (mkTranscription input now newId)) ∧
    (∀ k, isRecKey k = true → k ≠ primaryKey newId → Store.get s2 k = Store.get kv k) ∧
    (∀ p ∈ s2, p ∈ kv ∨ p = (primaryKey newId, .recVal (mkTranscription input now newId)) ∨
      ∃ ids, p = (indexKey input.userId, .idxVal ids)) := by
  unfold transcribeAudio at h
  split at h
  · simp at h
  split at h
  · simp at h
  split at h
  · simp at h
  split at h
  · simp at h
  split at h
  · simp at h
  split at h
  · simp at h
  simp only [] at h
  split at h
  case _ hidx =>
    simp only [Prod.mk.injEq, Except.ok.injEq] at h
    obtain ⟨hr, hs⟩ := h
    subst hr hs
    refine ⟨rfl, ?_, ?_, ?_⟩
    · rw [Store.get_put_ne _ _ _ _ (primaryKey_ne_indexKey newId input.userId)]
      exact Store.get_put_self _ _ _
    · intro k hk hne
      rw [Store.get_put_ne _ _ _ _ (isRecKey_ne_indexKey k input.userId hk)]
      exact Store.get_put_ne _ _ _ _ hne
    · intro p hp
      rcases Store.mem_put _ _ _ _ hp with hp1 | hp1
      · rcases Store.mem_put _ _ _ _ hp1 with hp2 | hp2
        · exact Or.inl hp2
        · exact Or.inr (Or.inl hp2)
      · exact Or.inr (Or.inr ⟨[newId], hp1⟩)
  case _ v hdec hidx =>
    split at h
    case _ ids hids =>
      simp only [Prod.mk.injEq, Except.ok.injEq] at h
      obtain ⟨hr, hs⟩ := h
      subst hr hs
      refine ⟨rfl, ?_, ?_, ?_⟩
      · rw [Store.get_put_ne _ _ _ _ (primaryKey_ne_indexKey newId input.userId)]
        exact Store.get_put_self _ _ _
      · intro k hk hne
        rw [Store.get_put_ne _ _ _ _ (isRecKey_ne_indexKey k input.userId hk)]
        exact Store.get_put_ne _ _ _ _ hne
      · intro p hp
        rcases Store.mem_put _ _ _ _ hp with hp1 | hp1
        · rcases Store.mem_put _ _ _ _ hp1 with hp2 | hp2
          · exact Or.inl hp2
          · exact Or.inr (Or.inl hp2)
        · exact Or.inr (Or.inr ⟨ids ++ [newId], hp1⟩)
    case _ hids =>
      simp at h

/-- A `transcribeAudio` call violating the size limit or the mime-type
allow-list fails with a `ValidationError` and leaves the store unchanged. -/
theorem transcribeAudio_invalid (kv : Store) (input : TranscribeAudioInput)
    (now : Timestamp) (newId : String)
    (h : maxSize < input.audioBuffer.length ∨ input.mimeType ∉ allowedTypes) :
    ∃ msg, transcribeAudio kv input now newId = (.error (.validation msg), kv) := by
  unfold transcribeAudio
  split_ifs with h1 h2 h3 h4 h5 h6
  · exact ⟨_, rfl⟩
  · exact ⟨_, rfl⟩
  · exact ⟨_, rfl⟩
  · exact ⟨_, rfl⟩
  · exact ⟨_, rfl⟩
  · exact absurd h (by simp [h5, h6])
  · exact ⟨_, rfl⟩

end TranscriptionRepository

open TranscriptionRepository

/-! ### Claim C1 -/

/-- C1: for every valid creation input (one on which `transcribeAudio`
succeeds), calling `getById` on the id carried by the returned value yields
the record that the call constructed and stored, and that record agrees
with the returned value on every field the returned value carries
(`text`, `transcriptionId`, `fileSize`, `mimeType`). -/
theorem claim_C1_create_get_roundtrip (kv : Store) (input : TranscribeAudioInput)
    (now : Timestamp) (newId : String) (r : TranscribeAudioResponse) (s2 : Store)
    (h : transcribeAudio kv input now newId = (.ok r, s2)) :
    ∃ t, getById s2 r.transcriptionId = .ok t ∧
      t.text = r.text ∧ t.transcriptionId = r.transcriptionId ∧
      t.fileSize = r.fileSize ∧ t.mimeType = r.mimeType := by
  obtain ⟨hr, hget, -, -⟩ := transcribeAudio_ok_spec kv input now newId r s2 h
  subst hr
  refine ⟨mkTranscription input now newId, ?_, rfl, rfl, rfl, rfl⟩
  exact (getById_ok_iff _ _ _).mpr hget

/-- C1 witness: a concrete valid creation on the empty store. -/
theorem claim_C1_create_get_roundtrip_witness :
    ∃ t, getById (transcribeAudio [] sampleInput 5 "id1").2
        (mkResponse sampleInput "id1").transcriptionId = .ok t ∧
      t.text = (mkResponse sampleInput "id1").text ∧
      t.transcriptionId = (mkResponse sampleInput "id1").transcriptionId ∧
      t.fileSize = (mkResponse sampleInput "id1").fileSize ∧
      t.mimeType = (mkResponse sampleInput "id1").mimeType :=
  claim_C1_create_get_roundtrip [] sampleInput 5 "id1" (mkResponse sampleInput "id1")
    (transcribeAudio [] sampleInput 5 "id1").2 (Prod.ext (by decide) rfl)

/-! ### Claim C2 -/

/-- C2: a creation input whose size exceeds 25 MiB or whose mime type is
outside the allow-list fails with a `ValidationError`, and the store — every
primary record and every owner index — is returned unchanged. -/
theorem claim_C2_invalid_create_no_write (kv : Store) (input : TranscribeAudioInput)
    (now : Timestamp) (newId : String)
    (h : maxSize < input.audioBuffer.length ∨ input.mimeType ∉ allowedTypes) :
    ∃ msg, transcribeAudio kv input now newId = (.error (.validation msg), kv) :=
  transcribeAudio_invalid kv input now newId h

/-- C2 witness: a concrete creation with a disallowed mime type on a
non-empty store. -/
theorem claim_C2_invalid_create_no_write_witness :
    ∃ msg, transcribeAudio sampleStore badMimeInput 7 "id9"
      = (.error (.validation msg), sampleStore) :=
  claim_C2_invalid_create_no_write sampleStore badMimeInput 7 "id9" (Or.inr (by decide))

/-! ### Claim C3 -/

/-- C3 counterexample: stored bytes that exist but fail to decode make
`getById` fail with the escaping decode error, which is not a
`NotFoundError` — refuting the claim that decode failure is surfaced as
`NotFoundError`. -/
theorem claim_C3_counterexample :
    getById [(primaryKey "x", .corruptVal "garbage")] "x" = .error .parseError ∧
    RepoError.parseError ≠ RepoError.notFound "Transcription" "x" := by
  exact ⟨by decide, by decide⟩

/-- C3 (amended): `getById` fails with `NotFoundError` when no primary
record is stored under `primaryKey(id)`; when stored bytes exist but fail
to decode, `getById` fails with the decode failure itself (`parseError`),
a distinct error that is not a `NotFoundError`. -/
theorem claim_C3_get_errors (kv : Store) (id : String) :
    (Store.get kv (primaryKey id) = none →
      getById kv id = .error (.notFound "Transcription" id)) ∧
    (∀ s0, Store.get kv (primaryKey id) = some (.corruptVal s0) →
      getById kv id = .error .parseError ∧
      ∀ e i, RepoError.parseError ≠ RepoError.notFound e i) := by
  refine ⟨getById_none kv id, fun s0 h => ⟨getById_corrupt kv id s0 h, ?_⟩⟩
  intro e i hne
  exact RepoError.noConfusion hne

/-- C3 witness: both amended branches at concrete stores. -/
theorem claim_C3_get_errors_witness :
    getById [] "zz" = .error (.notFound "Transcription" "zz") ∧
    getById [(primaryKey "x", .corruptVal "oops")] "x" = .error .parseError :=
  ⟨(claim_C3_get_errors [] "zz").1 rfl,
   (((claim_C3_get_errors [(primaryKey "x", .corruptVal "oops")] "x").2 "oops") (by decide)).1⟩

/-! ### Claim C9 -/

/-- C9: `listByUser` with the empty owner id fails with `ValidationError`
rather than returning an empty sequence, while an absent index for a
non-empty owner id yields the empty sequence, not an error. -/
theorem claim_C9_empty_owner_validation (kv : Store) (u : String) :
    listByUser kv "" = .error (.validation "User ID is required") ∧
    (u ≠ "" → Store.get kv (indexKey u) = none → listByUser kv u = .ok []) := by
  constructor
  · simp [listByUser]
  · intro hu hidx
    simp [listByUser, hu, hidx]

/-- C9 witness: the empty owner id on a non-empty store, and an absent
index for owner `v`. -/
theorem claim_C9_empty_owner_validation_witness :
    listByUser sampleStore "v" = .ok [] :=
  (claim_C9_empty_owner_validation sampleStore "v").2 (by decide) (by decide)

/-! ### Claim C5 -/

theorem update_ok_spec (kv : Store) (id : String) (u : UpdateTranscriptionInput)
    (ex : Transcription) (h : getById kv id = .ok ex) :
    update kv id u = (.ok (patchRecord ex u),
      Store.put kv (primaryKey id) (.recVal (patchRecord ex u))) := by
  unfold update
  rw [h]

theorem update_err_spec (kv : Store) (id : String) (u : UpdateTranscriptionInput)
    (e : RepoError) (h : getById kv id = .error e) :
    update kv id u = (.error e, kv) := by
  unfold update
  rw [h]

theorem patchRecord_confidence (ex : Transcription) (u : UpdateTranscriptionInput) :
    (patchRecord ex u).confidence = u.confidence.or ex.confidence := by
  cases hc : u.confidence <;> simp [patchRecord, Option.or, hc]

/-- C5: `update` changes at most `status`, `text` and `confidence`; every
other field is carried over unmodified from the existing record, the full
record is written back under the same primary key, the owner indexes are
untouched, and an absent id fails with `NotFoundError`. -/
theorem claim_C5_update_frame (kv : Store) (id : String) (u : UpdateTranscriptionInput) :
    (Store.get kv (primaryKey id) = none →
      update kv id u = (.error (.notFound "Transcription" id), kv)) ∧
    (∀ ex, getById kv id = .ok ex →
      ∃ t, update kv id u = (.ok t, Store.put kv (primaryKey id) (.recVal t)) ∧
        t.transcriptionId = ex.transcriptionId ∧ t.userId = ex.userId ∧
        t.originalFilename = ex.originalFilename ∧ t.fileSize = ex.fileSize ∧
        t.mimeType = ex.mimeType ∧ t.duration = ex.duration ∧
        t.createdAt = ex.createdAt ∧ t.expiresAt = ex.expiresAt ∧
        t.status = u.status.getD ex.status ∧ t.text = u.text.getD ex.text ∧
        t.confidence = u.confidence.or ex.confidence) ∧
    (∀ owner, Store.get (update kv id u).2 (indexKey owner) = Store.get kv (indexKey owner)) := by
  refine ⟨?_, ?_, ?_⟩
  · intro hnone
    exact update_err_spec kv id u _ (getById_none kv id hnone)
  · intro ex hex
    exact ⟨patchRecord ex u, update_ok_spec kv id u ex hex, rfl, rfl, rfl, rfl, rfl, rfl,
      rfl, rfl, rfl, rfl, patchRecord_confidence ex u⟩
  · intro owner
    cases hg : getById kv id with
    | error e =>
      rw [update_err_spec kv id u e hg]
    | ok ex =>
      rw [update_ok_spec kv id u ex hg]
      exact Store.get_put_ne _ _ _ _ (Ne.symm (primaryKey_ne_indexKey id owner))

/-- C5 witness: patching only `status` on a concrete store. -/
theorem claim_C5_update_frame_witness :
    ∃ t, update sampleStore "a" samplePatch
        = (.ok t, Store.put sampleStore (primaryKey "a") (.recVal t)) ∧
      t.createdAt = recA.createdAt ∧ t.fileSize = recA.fileSize ∧
      t.status = TranscriptionStatus.failed := by
  obtain ⟨t, h1, -, -, -, h4, -, -, h7, -, h9, -, -⟩ :=
    (claim_C5_update_frame sampleStore "a" samplePatch).2.1 recA (by decide)
  refine ⟨t, h1, h7, h4, ?_⟩
  rw [h9]
  decide

/-! ### Claim C4 -/

theorem sortByCreatedAtDesc_perm (ts : List Transcription) :
    List.Perm (sortByCreatedAtDesc ts) ts :=
  List.perm_insertionSort _ ts

theorem sortByCreatedAtDesc_sorted (ts : List Transcription) :
    List.Sorted (fun a b => b.createdAt ≤ a.createdAt) (sortByCreatedAtDesc ts) := by
  haveI : IsTotal Transcription (fun a b => b.createdAt ≤ a.createdAt) :=
    ⟨fun a b => Nat.le_total b.createdAt a.createdAt⟩
  haveI : IsTrans Transcription (fun a b => b.createdAt ≤ a.createdAt) :=
    ⟨fun a b c h1 h2 => Nat.le_trans h2 h1⟩
  exact List.sorted_insertionSort _ ts

theorem sortByCreatedAtDesc_stable (ts : List Transcription) (c : Nat) :
    (sortByCreatedAtDesc ts).filter (fun t => t.createdAt == c)
      = ts.filter (fun t => t.createdAt == c) := by
  have hsub : List.Sublist (ts.filter fun t => t.createdAt == c) ts := List.filter_sublist ts
  have hpw : (ts.filter fun t => t.createdAt == c).Pairwise
      (fun a b => b.createdAt ≤ a.createdAt) := by
    refine List.pairwise_of_forall_mem_list ?_
    intro a ha b hb
    have ha2 : a.createdAt = c := by simpa using List.of_mem_filter ha
    have hb2 : b.createdAt = c := by simpa using List.of_mem_filter hb
    rw [ha2, hb2]
  have h1 : List.Sublist (ts.filter fun t => t.createdAt == c) (sortByCreatedAtDesc ts) :=
    List.sublist_insertionSort hpw hsub
  have h2 : List.Sublist ((ts.filter fun t => t.createdAt == c).filter fun t => t.createdAt == c)
      ((sortByCreatedAtDesc ts).filter fun t => t.createdAt == c) :=
    h1.filter _
  simp only [List.filter_filter, Bool.and_self] at h2
  have hlen : ((sortByCreatedAtDesc ts).filter fun t => t.createdAt == c).length
      = (ts.filter fun t => t.createdAt == c).length :=
    ((sortByCreatedAtDesc_perm ts).filter _).length_eq
  exact (h2.eq_of_length hlen.symm).symm

theorem listByUser_absent (kv : Store) (uid : String) (hu : uid ≠ "")
    (h : Store.get kv (indexKey uid) = none) : listByUser kv uid = .ok [] := by
  simp [listByUser, hu, h]

theorem listByUser_idx_spec (kv : Store) (uid : String) (ids : List String) (hu : uid ≠ "")
    (h : Store.get kv (indexKey uid) = some (.idxVal ids)) :
    listByUser kv uid
      = .ok (sortByCreatedAtDesc (ids.filterMap fun i => (getById kv i).toOption)) := by
  simp [listByUser, hu, h, decodeIndex]

/-- C4: `listByUser` returns the empty sequence (not an error) when the
owner's index is absent or empty; for each indexed id it attempts `get`,
silently dropping ids whose `get` fails; and the result is the permutation
of the surviving records that is sorted by `createdAt` descending, with
ties kept in their index order (stability, stated as preservation of every
equal-`createdAt` fibre). -/
theorem claim_C4_list_by_owner (kv : Store) (userId : String) (h : userId ≠ "") :
    (Store.get kv (indexKey userId) = none → listByUser kv userId = .ok []) ∧
    (Store.get kv (indexKey userId) = some (.idxVal []) → listByUser kv userId = .ok []) ∧
    (∀ ids l, Store.get kv (indexKey userId) = some (.idxVal ids) →
      listByUser kv userId = .ok l →
      List.Perm l (ids.filterMap fun i => (getById kv i).toOption) ∧
      List.Sorted (fun a b => b.createdAt ≤ a.createdAt) l ∧
      ∀ c, l.filter (fun t => t.createdAt == c)
          = (ids.filterMap fun i => (getById kv i).toOption).filter
              (fun t => t.createdAt == c)) := by
  refine ⟨listByUser_absent kv userId h, ?_, ?_⟩
  · intro hidx
    rw [listByUser_idx_spec kv userId [] h hidx]
    rfl
  · intro ids l hidx hl
    rw [listByUser_idx_spec kv userId ids h hidx] at hl
    have hl2 : sortByCreatedAtDesc (ids.filterMap fun i => (getById kv i).toOption) = l :=
      Except.ok.inj hl
    subst hl2
    exact ⟨sortByCreatedAtDesc_perm _, sortByCreatedAtDesc_sorted _,
      fun c => sortByCreatedAtDesc_stable _ c⟩

/-- C4 witness: owner `u` of `sampleStore` lists `[recB, recA]` — the
newer record first — and that list is a sorted permutation of the fetched
records. -/
theorem claim_C4_list_by_owner_witness :
    List.Perm [recB, recA] (["a", "b"].filterMap fun i => (getById sampleStore i).toOption) ∧
    List.Sorted (fun a b => b.createdAt ≤ a.createdAt) [recB, recA] := by
  have h := (claim_C4_list_by_owner sampleStore "u" (by decide)).2.2
    ["a", "b"] [recB, recA] (by decide) (by decide)
  exact ⟨h.1, h.2.1⟩

/-! ### Claims C6 and C10: `delete` -/

theorem RecordsKeyed.eq_key (kv : Store) (k : String) (t : Transcription)
    (h : RecordsKeyed kv) (hm : (k, StoredVal.recVal t) ∈ kv) :
    k = primaryKey t.transcriptionId := by
  have h2 := h _ hm
  simpa [keyedOkB] using h2

theorem delete_absent (kv : Store) (id : String)
    (h : Store.get kv (primaryKey id) = none) :
    delete kv id = (.error (.notFound "Transcription" id), kv) := by
  unfold delete
  rw [getById_none kv id h]

/-- Full characterization of `delete` once the record is found: one clause
per shape of the owner's index entry. -/
theorem delete_ok_spec (kv : Store) (id : String) (t : Transcription)
    (h : getById kv id = .ok t) :
    (Store.get kv (indexKey t.userId) = none →
      delete kv id = (.ok (), Store.del kv (primaryKey id))) ∧
    (∀ ids, Store.get kv (indexKey t.userId) = some (.idxVal ids) →
      delete kv id = (.ok (), Store.put (Store.del kv (primaryKey id)) (indexKey t.userId)
        (.idxVal (ids.filter fun i => i ≠ id)))) ∧
    (∀ s0, Store.get kv (indexKey t.userId) = some (.corruptVal s0) →
      delete kv id = (.error .parseError, Store.del kv (primaryKey id))) ∧
    (∀ ts0, Store.get kv (indexKey t.userId) = some (.recVal ts0) →
      delete kv id = (.error .parseError, Store.del kv (primaryKey id))) := by
  have hidxget : Store.get (Store.del kv (primaryKey id)) (indexKey t.userId)
      = Store.get kv (indexKey t.userId) :=
    Store.get_del_ne _ _ _ (Ne.symm (primaryKey_ne_indexKey id t.userId))
  refine ⟨?_, ?_, ?_, ?_⟩
  · intro hnone
    simp only [delete, h, hidxget, hnone]
  · intro ids hids
    simp only [delete, h, hidxget, hids, decodeIndex]
  · intro s0 hs0
    simp only [delete, h, hidxget, hs0, decodeIndex]
  · intro ts0 hts0
    simp only [delete, h, hidxget, hts0, decodeIndex]

/-- The primary record is gone from the resulting store in every branch of
a found `delete`. -/
theorem delete_removes_primary (kv : Store) (id : String) (t : Transcription)
    (h : getById kv id = .ok t) :
    Store.get (delete kv id).2 (primaryKey id) = none := by
  obtain ⟨c1, c2, c3, c4⟩ := delete_ok_spec kv id t h
  cases hv : Store.get kv (indexKey t.userId) with
  | none => rw [c1 hv]; exact Store.get_del_self _ _
  | some v =>
    cases v with
    | recVal ts0 => rw [c4 ts0 hv]; exact Store.get_del_self _ _
    | idxVal ids =>
      rw [c2 ids hv]
      rw [Store.get_put_ne _ _ _ _ (primaryKey_ne_indexKey id t.userId)]
      exact Store.get_del_self _ _
    | corruptVal s0 => rw [c3 s0 hv]; exact Store.get_del_self _ _

/-- Every key other than the deleted primary key and the owner's index key
is untouched by `delete`, in every branch. -/
theorem delete_frame (kv : Store) (id : String) (t : Transcription)
    (h : getById kv id = .ok t) (k : String)
    (hk1 : k ≠ primaryKey id) (hk2 : k ≠ indexKey t.userId) :
    Store.get (delete kv id).2 k = Store.get kv k := by
  obtain ⟨c1, c2, c3, c4⟩ := delete_ok_spec kv id t h
  cases hv : Store.get kv (indexKey t.userId) with
  | none => rw [c1 hv]; exact Store.get_del_ne _ _ _ hk1
  | some v =>
    cases v with
    | recVal ts0 => rw [c4 ts0 hv]; exact Store.get_del_ne _ _ _ hk1
    | idxVal ids =>
      rw [c2 ids hv, Store.get_put_ne _ _ _ _ hk2]
      exact Store.get_del_ne _ _ _ hk1
    | corruptVal s0 => rw [c3 s0 hv]; exact Store.get_del_ne _ _ _ hk1

/-- Membership in the store after a found `delete` implies membership in
the original store, except for the rewritten index binding. -/
theorem delete_mem (kv : Store) (id : String) (t : Transcription)
    (h : getById kv id = .ok t) (p : String × StoredVal)
    (hp : p ∈ (delete kv id).2) :
    p ∈ kv ∨ ∃ ids, p = (indexKey t.userId, .idxVal ids) := by
  obtain ⟨c1, c2, c3, c4⟩ := delete_ok_spec kv id t h
  cases hv : Store.get kv (indexKey t.userId) with
  | none =>
    rw [c1 hv] at hp
    exact Or.inl (Store.mem_del _ _ _ hp)
  | some v =>
    cases v with
    | recVal ts0 =>
      rw [c4 ts0 hv] at hp
      exact Or.inl (Store.mem_del _ _ _ hp)
    | idxVal ids =>
      rw [c2 ids hv] at hp
      rcases Store.mem_put _ _ _ _ hp with hp1 | hp1
      · exact Or.inl (Store.mem_del _ _ _ hp1)
      · exact Or.inr ⟨_, hp1⟩
    | corruptVal s0 =>
      rw [c3 s0 hv] at hp
      exact Or.inl (Store.mem_del _ _ _ hp)

/-- C6: `delete` fails with `NotFoundError` when the primary record is
absent; otherwise it removes the primary record, filters the id out of the
owner's index when that index is present (succeeding even when the index
does not contain the id, or is absent); afterwards `getById` fails with
`NotFoundError` and the id no longer appears in the owner's listing. -/
theorem claim_C6_delete (kv : Store) (id : String) (hkeyed : RecordsKeyed kv) :
    (Store.get kv (primaryKey id) = none →
      delete kv id = (.error (.notFound "Transcription" id), kv)) ∧
    (∀ t, getById kv id = .ok t →
      (Store.get kv (indexKey t.userId) = none →
        delete kv id = (.ok (), Store.del kv (primaryKey id))) ∧
      (∀ ids, Store.get kv (indexKey t.userId) = some (.idxVal ids) →
        delete kv id = (.ok (), Store.put (Store.del kv (primaryKey id)) (indexKey t.userId)
          (.idxVal (ids.filter fun i => i ≠ id)))) ∧
      getById (delete kv id).2 id = .error (.notFound "Transcription" id) ∧
      (∀ l, listByUser (delete kv id).2 t.userId = .ok l →
        ∀ r ∈ l, r.transcriptionId ≠ id)) := by
  refine ⟨delete_absent kv id, ?_⟩
  intro t h
  obtain ⟨c1, c2, c3, c4⟩ := delete_ok_spec kv id t h
  refine ⟨c1, c2, getById_none _ _ (delete_removes_primary kv id t h), ?_⟩
  intro l hl r hr hrid
  by_cases hu : t.userId = ""
  · rw [hu] at hl
    simp [listByUser] at hl
  cases hv : Store.get kv (indexKey t.userId) with
  | none =>
    rw [c1 hv] at hl
    rw [listByUser_absent _ _ hu] at hl
    · injection hl with hl2
      subst hl2
      cases hr
    · rw [Store.get_del_ne _ _ _ (Ne.symm (primaryKey_ne_indexKey id t.userId))]
      exact hv
  | some v =>
    cases v with
    | recVal ts0 =>
      rw [c4 ts0 hv] at hl
      have hget2 : Store.get (Store.del kv (primaryKey id)) (indexKey t.userId)
          = some (.recVal ts0) := by
        rw [Store.get_del_ne _ _ _ (Ne.symm (primaryKey_ne_indexKey id t.userId))]
        exact hv
      simp [listByUser, hu, hget2, decodeIndex] at hl
    | corruptVal s0 =>
      rw [c3 s0 hv] at hl
      have hget2 : Store.get (Store.del kv (primaryKey id)) (indexKey t.userId)
          = some (.corruptVal s0) := by
        rw [Store.get_del_ne _ _ _ (Ne.symm (primaryKey_ne_indexKey id t.userId))]
        exact hv
      simp [listByUser, hu, hget2, decodeIndex] at hl
    | idxVal ids =>
      rw [c2 ids hv] at hl
      have hget2 : Store.get (Store.put (Store.del kv (primaryKey id)) (indexKey t.userId)
            (.idxVal (ids.filter fun i => i ≠ id))) (indexKey t.userId)
          = some (.idxVal (ids.filter fun i => i ≠ id)) :=
        Store.get_put_self _ _ _
      rw [listByUser_idx_spec _ _ _ hu hget2] at hl
      injection hl with hl2
      subst hl2
      have hr2 := (sortByCreatedAtDesc_perm _).mem_iff.mp hr
      obtain ⟨i, hi, hir⟩ := List.mem_filterMap.mp hr2
      have hiid : i ≠ id := by
        have := (List.mem_filter.mp hi).2
        exact of_decide_eq_true this
      have hgetr : getById (Store.put (Store.del kv (primaryKey id)) (indexKey t.userId)
          (.idxVal (ids.filter fun i => i ≠ id))) i = .ok r := by
        cases hg : getById (Store.put (Store.del kv (primaryKey id)) (indexKey t.userId)
            (.idxVal (ids.filter fun i => i ≠ id))) i with
        | error e => rw [hg] at hir; simp [Except.toOption] at hir
        | ok x =>
          rw [hg] at hir
          simp only [Except.toOption, Option.some.injEq] at hir
          rw [hir]
      have hmem : (primaryKey i, StoredVal.recVal r)
          ∈ Store.put (Store.del kv (primaryKey id)) (indexKey t.userId)
              (.idxVal (ids.filter fun i => i ≠ id)) :=
        Store.get_mem _ _ _ ((getById_ok_iff _ _ _).mp hgetr)
      have hmemdel : (primaryKey i, StoredVal.recVal r) ∈ (delete kv id).2 := by
        rw [c2 ids hv]
        exact hmem
      rcases delete_mem kv id t h _ hmemdel with hmem2 | hmem2
      · have hkey := RecordsKeyed.eq_key kv _ _ hkeyed hmem2
        have : i = r.transcriptionId := primaryKey_inj _ _ hkey
        rw [← this] at hrid
        exact hiid hrid
      · obtain ⟨ids2, hids2⟩ := hmem2
        exact primaryKey_ne_indexKey i t.userId (congrArg Prod.fst hids2)

/-- C6 witness: deleting `a` from `sampleStore`. -/
theorem claim_C6_delete_witness :
    delete sampleStore "a" = (.ok (), Store.put (Store.del sampleStore (primaryKey "a"))
      (indexKey "u") (.idxVal (["a", "b"].filter fun i => i ≠ "a"))) ∧
    getById (delete sampleStore "a").2 "a" = .error (.notFound "Transcription" "a") := by
  have h := (claim_C6_delete sampleStore "a" (by decide)).2 recA (by decide)
  exact ⟨h.2.1 ["a", "b"] (by decide), h.2.2.1⟩

/-- C10: `delete` leaves every other owner's index and every other primary
record unchanged, and the surviving index is the original list filtered in
place (a sublist, so relative order is preserved). -/
theorem claim_C10_delete_frame (kv : Store) (id : String) (t : Transcription)
    (h : getById kv id = .ok t) :
    (∀ k, k ≠ primaryKey id → k ≠ indexKey t.userId →
      Store.get (delete kv id).2 k = Store.get kv k) ∧
    (∀ owner, owner ≠ t.userId →
      Store.get (delete kv id).2 (indexKey owner) = Store.get kv (indexKey owner)) ∧
    (∀ id2, id2 ≠ id →
      Store.get (delete kv id).2 (primaryKey id2) = Store.get kv (primaryKey id2)) ∧
    (∀ ids, Store.get kv (indexKey t.userId) = some (.idxVal ids) →
      Store.get (delete kv id).2 (indexKey t.userId)
        = some (.idxVal (ids.filter fun i => i ≠ id)) ∧
      List.Sublist (ids.filter fun i => i ≠ id) ids) := by
  refine ⟨delete_frame kv id t h, ?_, ?_, ?_⟩
  · intro owner howner
    refine delete_frame kv id t h _ (Ne.symm (primaryKey_ne_indexKey id owner)) ?_
    intro h2
    exact howner (indexKey_inj _ _ h2)
  · intro id2 hid2
    refine delete_frame kv id t h _ ?_ (primaryKey_ne_indexKey id2 t.userId)
    intro h2
    exact hid2 (primaryKey_inj _ _ h2)
  · intro ids hids
    obtain ⟨-, c2, -, -⟩ := delete_ok_spec kv id t h
    rw [c2 ids hids]
    exact ⟨Store.get_put_self _ _ _, List.filter_sublist ids⟩

/-- C10 witness: deleting `a` leaves `b`'s record and keeps `b` in the
index, in order. -/
theorem claim_C10_delete_frame_witness :
    Store.get (delete sampleStore "a").2 (primaryKey "b")
      = Store.get sampleStore (primaryKey "b") ∧
    Store.get (delete sampleStore "a").2 (indexKey "u") = some (.idxVal ["b"]) := by
  have h := claim_C10_delete_frame sampleStore "a" recA (by decide)
  refine ⟨h.2.2.1 "b" (by decide), ?_⟩
  exact ((h.2.2.2 ["a", "b"] (by decide)).1).trans (by decide)

/-! ### Claim C8 -/

/-- Store-level form of the time invariant: every stored record expires
strictly after its creation. -/
def TimesOk (kv : Store) : Prop :=
  ∀ p ∈ kv, ∀ t0, p.2 = StoredVal.recVal t0 → t0.createdAt < t0.expiresAt

/-- C8: a record produced by `create` has `expiresAt = createdAt + TTL`
(hence `expiresAt > createdAt`); `update` never changes `createdAt` or
`expiresAt`; and both operations preserve the store-level invariant, so it
holds after any sequence of updates. -/
theorem claim_C8_expiry_invariant (kv : Store) (input : TranscribeAudioInput)
    (now : Timestamp) (newId : String) (id : String) (u : UpdateTranscriptionInput) :
    (∀ r s2, transcribeAudio kv input now newId = (.ok r, s2) →
      Store.get s2 (primaryKey newId) = some (.recVal (mkTranscription input now newId)) ∧
      (mkTranscription input now newId).expiresAt
        = (mkTranscription input now newId).createdAt + ttlMillis ∧
      (mkTranscription input now newId).createdAt
        < (mkTranscription input now newId).expiresAt) ∧
    (∀ ex, getById kv id = .ok ex → ∀ t s2, update kv id u = (.ok t, s2) →
      t.createdAt = ex.createdAt ∧ t.expiresAt = ex.expiresAt) ∧
    (TimesOk kv → TimesOk (update kv id u).2) ∧
    (∀ r s2, transcribeAudio kv input now newId = (.ok r, s2) → TimesOk kv → TimesOk s2) := by
  refine ⟨?_, ?_, ?_, ?_⟩
  · intro r s2 hcr
    obtain ⟨-, hget, -, -⟩ := transcribeAudio_ok_spec kv input now newId r s2 hcr
    refine ⟨hget, rfl, ?_⟩
    show now < now + ttlMillis
    exact Nat.lt_add_of_pos_right (by decide)
  · intro ex hex t s2 hupd
    rw [update_ok_spec kv id u ex hex] at hupd
    have ht : patchRecord ex u = t := by
      have := congrArg Prod.fst hupd
      simpa using this
    subst ht
    exact ⟨rfl, rfl⟩
  · intro htimes
    cases hg : getById kv id with
    | error e =>
      rw [update_err_spec kv id u e hg]
      exact htimes
    | ok ex =>
      rw [update_ok_spec kv id u ex hg]
      intro p hp t0 ht0
      rcases Store.mem_put _ _ _ _ hp with hp1 | hp1
      · exact htimes p hp1 t0 ht0
      · have hex : ex.createdAt < ex.expiresAt := by
          have hm : (primaryKey id, StoredVal.recVal ex) ∈ kv :=
            Store.get_mem _ _ _ ((getById_ok_iff _ _ _).mp hg)
          exact htimes _ hm ex rfl
        have hval : StoredVal.recVal (patchRecord ex u) = StoredVal.recVal t0 := by
          rw [hp1] at ht0
          exact ht0
        have ht02 : patchRecord ex u = t0 := StoredVal.recVal.inj hval
        subst ht02
        exact hex
  · intro r s2 hcr htimes
    obtain ⟨-, -, -, hmem⟩ := transcribeAudio_ok_spec kv input now newId r s2 hcr
    intro p hp t0 ht0
    rcases hmem p hp with hp1 | hp1 | hp1
    · exact htimes p hp1 t0 ht0
    · rw [hp1] at ht0
      have ht02 : mkTranscription input now newId = t0 := StoredVal.recVal.inj ht0
      subst ht02
      show now < now + ttlMillis
      exact Nat.lt_add_of_pos_right (by decide)
    · obtain ⟨ids, hids⟩ := hp1
      rw [hids] at ht0
      exact absurd ht0 (by simp)

/-- C8 witness: the concrete creation and the concrete status-only update. -/
theorem claim_C8_expiry_invariant_witness :
    (mkTranscription sampleInput 5 "id1").createdAt
      < (mkTranscription sampleInput 5 "id1").expiresAt ∧
    (patchRecord recA samplePatch).createdAt = recA.createdAt ∧
    (patchRecord recA samplePatch).expiresAt = recA.expiresAt := by
  have h1 := ((claim_C8_expiry_invariant [] sampleInput 5 "id1" "a" samplePatch).1
    (mkResponse sampleInput "id1") (transcribeAudio [] sampleInput 5 "id1").2
    (Prod.ext (by decide) rfl)).2.2
  have h2 := (claim_C8_expiry_invariant sampleStore sampleInput 5 "id1" "a" samplePatch).2.1
    recA (by decide) (patchRecord recA samplePatch)
    (update sampleStore "a" samplePatch).2 (Prod.ext (by decide) rfl)
  exact ⟨h1, h2.1, h2.2⟩

/-! ### Claim C7: the expiry sweeper -/

theorem nodupKeys_del (kv : Store) (k : String) (h : NodupKeys kv) :
    NodupKeys (Store.del kv k) :=
  h.sublist ((List.filter_sublist kv).map Prod.fst)

theorem nodupKeys_put (kv : Store) (k : String) (v : StoredVal) (h : NodupKeys kv) :
    NodupKeys (Store.put kv k v) := by
  induction kv with
  | nil => simp [Store.put, NodupKeys]
  | cons p rest ih =>
    have h2 : p.1 ∉ rest.map Prod.fst := (List.nodup_cons.mp h).1
    have h3 : NodupKeys rest := (List.nodup_cons.mp h).2
    by_cases hp : p.1 = k
    · unfold NodupKeys
      simp only [Store.put, hp, if_pos, List.map_cons]
      exact List.nodup_cons.mpr ⟨hp ▸ h2, h3⟩
    · unfold NodupKeys
      simp only [Store.put, hp, if_neg, not_false_iff, List.map_cons]
      refine List.nodup_cons.mpr ⟨?_, ih h3⟩
      intro hmem
      obtain ⟨q, hq, hq2⟩ := List.mem_map.mp hmem
      rcases Store.mem_put _ _ _ _ hq with hq3 | hq3
      · exact h2 (List.mem_map.mpr ⟨q, hq3, hq2⟩)
      · rw [hq3] at hq2
        exact hp hq2.symm

theorem recordsKeyed_del (kv : Store) (k : String) (h : RecordsKeyed kv) :
    RecordsKeyed (Store.del kv k) :=
  fun p hp => h p (Store.mem_del _ _ _ hp)

theorem indexesOk_del (kv : Store) (k : String) (h : IndexesOk kv) :
    IndexesOk (Store.del kv k) :=
  fun p hp => h p (Store.mem_del _ _ _ hp)

theorem wellFormed_del (kv : Store) (k : String) (h : WellFormed kv) :
    WellFormed (Store.del kv k) :=
  ⟨nodupKeys_del kv k h.1, recordsKeyed_del kv k h.2.1, indexesOk_del kv k h.2.2⟩

theorem wellFormed_put_idx (kv : Store) (u : String) (ids : List String)
    (h : WellFormed kv) : WellFormed (Store.put kv (indexKey u) (.idxVal ids)) := by
  refine ⟨nodupKeys_put kv _ _ h.1, ?_, ?_⟩
  · intro p hp
    rcases Store.mem_put _ _ _ _ hp with hp1 | hp1
    · exact h.2.1 p hp1
    · rw [hp1]
      rfl
  · intro p hp hk
    rcases Store.mem_put _ _ _ _ hp with hp1 | hp1
    · exact h.2.2 p hp1 hk
    · rw [hp1]
      rfl

theorem IndexesOk.idx_shape (kv : Store) (u : String) (v : StoredVal)
    (h : IndexesOk kv) (hg : Store.get kv (indexKey u) = some v) :
    ∃ ids, v = StoredVal.idxVal ids := by
  have hm := Store.get_mem _ _ _ hg
  have h2 := h _ hm (isIdxKey_indexKey u)
  cases v with
  | idxVal ids => exact ⟨ids, rfl⟩
  | recVal t => simp [isIdxVal] at h2
  | corruptVal s0 => simp [isIdxVal] at h2

theorem listKeys_isRecKey (kv : Store) : ∀ k ∈ listKeys kv, isRecKey k = true := by
  intro k hk
  obtain ⟨p, hp, hp2⟩ := List.mem_map.mp hk
  have := (List.mem_filter.mp hp).2
  rw [← hp2]
  exact this

theorem listKeys_nodup (kv : Store) (h : NodupKeys kv) : (listKeys kv).Nodup :=
  h.sublist ((List.filter_sublist kv).map Prod.fst)

theorem mem_listKeys (kv : Store) (k : String) (v : StoredVal)
    (hr : isRecKey k = true) (hg : Store.get kv k = some v) : k ∈ listKeys kv :=
  List.mem_map.mpr ⟨(k, v), List.mem_filter.mpr ⟨Store.get_mem _ _ _ hg, hr⟩, rfl⟩

theorem isExpiredAt_congr (now : Timestamp) (s1 s : Store) (k : String)
    (h : Store.get s1 k = Store.get s k) :
    isExpiredAt now s1 k = isExpiredAt now s k := by
  unfold isExpiredAt
  rw [h]

theorem isRecKey_of_expired (kv : Store) (now : Timestamp) (k : String)
    (hRK : RecordsKeyed kv) (h : isExpiredAt now kv k = true) : isRecKey k = true := by
  unfold isExpiredAt at h
  cases hg : Store.get kv k with
  | none => rw [hg] at h; cases h
  | some v =>
    rw [hg] at h
    cases v with
    | recVal t =>
      have hk := RecordsKeyed.eq_key kv k t hRK (Store.get_mem _ _ _ hg)
      rw [hk]
      exact isRecKey_primaryKey _
    | idxVal ids => simp [isExpiredVal] at h
    | corruptVal s0 => simp [isExpiredVal] at h

theorem sweepStep_not_expired (now : Timestamp) (c : Nat) (s : Store) (k : String)
    (h : isExpiredAt now s k = false) : sweepStep now (c, s) k = (c, s) := by
  unfold isExpiredAt at h
  cases hg : Store.get s k with
  | none => simp [sweepStep, hg]
  | some v =>
    rw [hg] at h
    cases v with
    | recVal t =>
      have hlt : ¬ t.expiresAt < now := by simpa [isExpiredVal] using h
      simp [sweepStep, hg, decodeTranscription, hlt]
    | idxVal ids => simp [sweepStep, hg, decodeTranscription]
    | corruptVal s0 => simp [sweepStep, hg, decodeTranscription]

theorem sweepStep_expired (now : Timestamp) (c : Nat) (s : Store) (k : String)
    (hWF : WellFormed s) (h : isExpiredAt now s k = true) :
    ∃ s1, sweepStep now (c, s) k = (c + 1, s1) ∧ WellFormed s1 ∧
      Store.get s1 k = none ∧
      (∀ k2, isRecKey k2 = true → k2 ≠ k → Store.get s1 k2 = Store.get s k2) := by
  unfold isExpiredAt at h
  cases hg : Store.get s k with
  | none => rw [hg] at h; cases h
  | some v =>
    rw [hg] at h
    cases v with
    | idxVal ids => simp [isExpiredVal] at h
    | corruptVal s0 => simp [isExpiredVal] at h
    | recVal t =>
      have hlt : t.expiresAt < now := by simpa [isExpiredVal] using h
      have hk : k = primaryKey t.transcriptionId :=
        RecordsKeyed.eq_key s k t hWF.2.1 (Store.get_mem _ _ _ hg)
      have hgetid : getById s t.transcriptionId = .ok t := by
        rw [getById_ok_iff, ← hk]
        exact hg
      obtain ⟨c1, c2, -, -⟩ := delete_ok_spec s t.transcriptionId t hgetid
      have hreck : isRecKey k = true := by
        rw [hk]
        exact isRecKey_primaryKey _
      cases hv : Store.get s (indexKey t.userId) with
      | none =>
        have hdel := c1 hv
        refine ⟨Store.del s (primaryKey t.transcriptionId), ?_, ?_, ?_, ?_⟩
        · simp [sweepStep, hg, decodeTranscription, hlt, hdel]
        · exact wellFormed_del s _ hWF
        · rw [hk]
          exact Store.get_del_self _ _
        · intro k2 hr2 hne
          refine Store.get_del_ne _ _ _ ?_
          rw [← hk]
          exact hne
      | some v2 =>
        obtain ⟨ids, hids⟩ := IndexesOk.idx_shape s t.userId v2 hWF.2.2 hv
        subst hids
        have hdel := c2 ids hv
        refine ⟨Store.put (Store.del s (primaryKey t.transcriptionId)) (indexKey t.userId)
          (.idxVal (ids.filter fun i => i ≠ t.transcriptionId)), ?_, ?_, ?_, ?_⟩
        · simp [sweepStep, hg, decodeTranscription, hlt, hdel]
        · exact wellFormed_put_idx _ _ _ (wellFormed_del s _ hWF)
        · rw [Store.get_put_ne _ _ _ _ (isRecKey_ne_indexKey k _ hreck), hk]
          exact Store.get_del_self _ _
        · intro k2 hr2 hne
          rw [Store.get_put_ne _ _ _ _ (isRecKey_ne_indexKey k2 _ hr2)]
          refine Store.get_del_ne _ _ _ ?_
          rw [← hk]
          exact hne

/-- The sweep loop over a list of distinct record keys: it deletes exactly
the keys holding expired records, counts them, preserves well-formedness,
and leaves every other record key untouched. -/
theorem sweep_go (now : Timestamp) : ∀ (ks : List String) (c : Nat) (s : Store),
    WellFormed s → ks.Nodup → (∀ k ∈ ks, isRecKey k = true) →
    ∃ s2, ks.foldl (sweepStep now) (c, s)
        = (c + (ks.filter (isExpiredAt now s)).length, s2) ∧
      WellFormed s2 ∧
      (∀ k ∈ ks, isExpiredAt now s k = true → Store.get s2 k = none) ∧
      (∀ k, isRecKey k = true → isExpiredAt now s k = false →
        Store.get s2 k = Store.get s k) ∧
      (∀ k, isRecKey k = true → k ∉ ks → Store.get s2 k = Store.get s k) := by
  intro ks
  induction ks with
  | nil =>
    intro c s hWF hnd hrk
    exact ⟨s, by simp, hWF, by simp, fun k _ _ => rfl, fun k _ _ => rfl⟩
  | cons k0 rest ih =>
    intro c s hWF hnd hrk
    have hnd0 : k0 ∉ rest := (List.nodup_cons.mp hnd).1
    have hndr : rest.Nodup := (List.nodup_cons.mp hnd).2
    have hrk0 : isRecKey k0 = true := hrk k0 (List.mem_cons_self _ _)
    have hrkr : ∀ k ∈ rest, isRecKey k = true := fun k hk => hrk k (List.mem_cons_of_mem _ hk)
    by_cases hexp : isExpiredAt now s k0 = true
    · obtain ⟨s1, hstep, hWF1, hnone1, hframe1⟩ := sweepStep_expired now c s k0 hWF hexp
      obtain ⟨s2, hfold, hWF2, h3, h4, h5⟩ := ih (c + 1) s1 hWF1 hndr hrkr
      have hcongr : ∀ k ∈ rest, isExpiredAt now s1 k = isExpiredAt now s k := by
        intro k hk
        exact isExpiredAt_congr now s1 s k
          (hframe1 k (hrkr k hk) (fun he => hnd0 (he ▸ hk)))
      have hcnt : rest.filter (isExpiredAt now s1) = rest.filter (isExpiredAt now s) :=
        List.filter_congr hcongr
      refine ⟨s2, ?_, hWF2, ?_, ?_, ?_⟩
      · have hfc : ((k0 :: rest).filter (isExpiredAt now s)).length
            = (rest.filter (isExpiredAt now s)).length + 1 := by
          simp [List.filter_cons, hexp]
        have harith : c + 1 + (rest.filter (isExpiredAt now s)).length
            = c + ((rest.filter (isExpiredAt now s)).length + 1) := by omega
        rw [List.foldl_cons, hstep, hfold, hcnt, hfc, harith]
      · intro k hk hkexp
        rcases List.mem_cons.mp hk with hk1 | hk1
        · subst hk1
          rw [h5 k hrk0 hnd0]
          exact hnone1
        · refine h3 k hk1 ?_
          rw [hcongr k hk1]
          exact hkexp
      · intro k hrk2 hkexp
        have hne : k ≠ k0 := by
          intro he
          rw [he] at hkexp
          rw [hkexp] at hexp
          cases hexp
        have hs1 : Store.get s1 k = Store.get s k := hframe1 k hrk2 hne
        have hexp1 : isExpiredAt now s1 k = false := by
          rw [isExpiredAt_congr now s1 s k hs1]
          exact hkexp
        rw [h4 k hrk2 hexp1, hs1]
      · intro k hrk2 hk
        have hne : k ≠ k0 := fun he => hk (he ▸ List.mem_cons_self k0 rest)
        have hnr : k ∉ rest := fun hr => hk (List.mem_cons_of_mem _ hr)
        rw [h5 k hrk2 hnr]
        exact hframe1 k hrk2 hne
    · have hexpF : isExpiredAt now s k0 = false := by simpa using hexp
      have hstep := sweepStep_not_expired now c s k0 hexpF
      obtain ⟨s2, hfold, hWF2, h3, h4, h5⟩ := ih c s hWF hndr hrkr
      refine ⟨s2, ?_, hWF2, ?_, h4, ?_⟩
      · have hfc : ((k0 :: rest).filter (isExpiredAt now s)).length
            = (rest.filter (isExpiredAt now s)).length := by
          simp [List.filter_cons, hexpF]
        rw [List.foldl_cons, hstep, hfold, hfc]
      · intro k hk hkexp
        rcases List.mem_cons.mp hk with hk1 | hk1
        · subst hk1
          rw [hkexp] at hexpF
          cases hexpF
        · exact h3 k hk1 hkexp
      · intro k hrk2 hk
        exact h5 k hrk2 (fun hr => hk (List.mem_cons_of_mem _ hr))

theorem sweep_fold_noop (now : Timestamp) (s : Store) (ks : List String)
    (h : ∀ k ∈ ks, isExpiredAt now s k = false) :
    ∀ c, ks.foldl (sweepStep now) (c, s) = (c, s) := by
  induction ks with
  | nil => intro c; rfl
  | cons k0 rest ih =>
    intro c
    rw [List.foldl_cons, sweepStep_not_expired now c s k0 (h k0 (List.mem_cons_self _ _))]
    exact ih (fun k hk => h k (List.mem_cons_of_mem _ hk)) c

/-- A sweep over a store with no expired record under a record key is a
no-op returning 0. -/
theorem sweep_noop (now : Timestamp) (s : Store)
    (h : ∀ k, isRecKey k = true → isExpiredAt now s k = false) :
    cleanupExpired s now = (0, s) := by
  unfold cleanupExpired
  exact sweep_fold_noop now s (listKeys s)
    (fun k hk => h k (listKeys_isRecKey s k hk)) 0

theorem get_of_mem_nodup (kv : Store) (k : String) (v : StoredVal)
    (h : NodupKeys kv) (hm : (k, v) ∈ kv) : Store.get kv k = some v := by
  induction kv with
  | nil => cases hm
  | cons p rest ih =>
    have h2 : p.1 ∉ rest.map Prod.fst := (List.nodup_cons.mp h).1
    have h3 : NodupKeys rest := (List.nodup_cons.mp h).2
    rcases List.mem_cons.mp hm with hm1 | hm1
    · rw [← hm1]
      simp [Store.get]
    · have hne : ¬ p.1 = k := by
        intro he
        exact h2 (List.mem_map.mpr ⟨(k, v), hm1, he.symm⟩)
      simp only [Store.get, hne, if_neg, not_false_iff]
      exact ih h3 hm1

/-- Under distinct keys, the number of expired record keys in the sweeper's
snapshot equals the number of expired record bindings of the store. -/
theorem sweep_count_eq (kv : Store) (now : Timestamp) (h : NodupKeys kv) :
    ((listKeys kv).filter (isExpiredAt now kv)).length
      = (kv.filter fun p => isRecKey p.1 && isExpiredVal now p.2).length := by
  unfold listKeys
  rw [List.filter_map (Prod.fst (β := StoredVal)) (kv.filter fun p => isRecKey p.1)]
  rw [List.length_map, List.filter_filter]
  apply congrArg List.length
  apply List.filter_congr
  intro p hp
  obtain ⟨k, v⟩ := p
  have hg : Store.get kv k = some v := get_of_mem_nodup kv k v h hp
  have : isExpiredAt now kv k = isExpiredVal now v := by
    unfold isExpiredAt
    rw [hg]
  simp only [Function.comp]
  rw [this]
  exact Bool.and_comm _ _

/-- C7: under well-formedness, `cleanupExpired` deletes exactly the stored
records whose `expiresAt` is earlier than `now` (leaving every non-expired
record binding unchanged) and returns their number; running it again
immediately deletes nothing and returns 0. -/
theorem claim_C7_sweep_idempotent (kv : Store) (now : Timestamp) (hWF : WellFormed kv) :
    (cleanupExpired kv now).1
        = (kv.filter fun p => isRecKey p.1 && isExpiredVal now p.2).length ∧
    (∀ k, isExpiredAt now kv k = true → Store.get (cleanupExpired kv now).2 k = none) ∧
    (∀ k, isRecKey k = true → isExpiredAt now kv k = false →
      Store.get (cleanupExpired kv now).2 k = Store.get kv k) ∧
    cleanupExpired (cleanupExpired kv now).2 now = (0, (cleanupExpired kv now).2) := by
  obtain ⟨s2, hfold, hWF2, h3, h4, h5⟩ :=
    sweep_go now (listKeys kv) 0 kv hWF (listKeys_nodup kv hWF.1) (listKeys_isRecKey kv)
  have hc : cleanupExpired kv now = (((listKeys kv).filter (isExpiredAt now kv)).length, s2) := by
    unfold cleanupExpired
    rw [hfold]
    rw [Nat.zero_add]
  have hdel : ∀ k, isExpiredAt now kv k = true → Store.get s2 k = none := by
    intro k hk
    have hrk : isRecKey k = true := isRecKey_of_expired kv now k hWF.2.1 hk
    have hv : ∃ v, Store.get kv k = some v := by
      unfold isExpiredAt at hk
      cases hg : Store.get kv k with
      | none => rw [hg] at hk; cases hk
      | some v => exact ⟨v, rfl⟩
    obtain ⟨v, hv⟩ := hv
    exact h3 k (mem_listKeys kv k v hrk hv) hk
  have hnoexp : ∀ k, isRecKey k = true → isExpiredAt now s2 k = false := by
    intro k hrk
    by_cases hexp : isExpiredAt now kv k = true
    · have := hdel k hexp
      unfold isExpiredAt
      rw [this]
    · have hexpF : isExpiredAt now kv k = false := by simpa using hexp
      rw [isExpiredAt_congr now s2 kv k (h4 k hrk hexpF)]
      exact hexpF
  refine ⟨?_, ?_, ?_, ?_⟩
  · rw [hc]
    exact sweep_count_eq kv now hWF.1
  · intro k hk
    rw [hc]
    exact hdel k hk
  · intro k hrk hexp
    rw [hc]
    exact h4 k hrk hexp
  · rw [hc]
    exact sweep_noop now s2 hnoexp

/-- C7 witness: sweeping `sampleStore` at a time when only `recA` is
expired deletes exactly that record, returns 1, and a second sweep is a
no-op returning 0. -/
theorem claim_C7_sweep_idempotent_witness :
    (cleanupExpired sampleStore 5).1 = 1 ∧
    Store.get (cleanupExpired sampleStore 5).2 (primaryKey "a") = none ∧
    Store.get (cleanupExpired sampleStore 5).2 (primaryKey "b")
      = Store.get sampleStore (primaryKey "b") ∧
    cleanupExpired (cleanupExpired sampleStore 5).2 5
      = (0, (cleanupExpired sampleStore 5).2) := by
  have h := claim_C7_sweep_idempotent sampleStore 5 (by decide)
  refine ⟨?_, ?_, ?_, h.2.2.2⟩
  · rw [h.1]
    decide
  · exact h.2.1 (primaryKey "a") (by decide)
  · exact h.2.2.1 (primaryKey "b") (by decide) (by decide)
